import Mathlib

/-!
Shallow embedding of the SlyMarbo/web repository (Go): the Site path-matching
chain (src/site.go), the ReverseProxy domain routing (src/site.go), and the
Server port-grouping / listener startup logic (src/server.go).  Handlers are
opaque: they are modelled by a type parameter, and "invoking a handler" is
modelled by returning it as the dispatch result.
-/

namespace Web

/-! ### Models of the Go standard-library string functions used by the code.
These are external collaborators of the repository (package strings, package
net); they are modelled by their documented behaviour over `List Char`. -/

/-- Model of strings.HasPrefix(s, prefixArg): s begins with prefixArg. -/
def goHasPrefixFn (s pre : String) : Bool :=
  List.isPrefixOf pre.data s.data

/-- Model of strings.HasSuffix(s, suffixArg): s ends with suffixArg. -/
def goHasSuffixFn (s suf : String) : Bool :=
  List.isSuffixOf suf.data s.data

/-- Model of strings.Contains(s, substr): substr is within s. -/
def goContainsFn (s sub : String) : Bool :=
  decide (List.IsInfix sub.data s.data)

/-- Model of strings.EqualFold over its ASCII behaviour: the two strings are
equal under simple case folding. -/
def goEqualFoldFn (s1 s2 : String) : Bool :=
  s1.data.map Char.toLower == s2.data.map Char.toLower

/-- Index of the last occurrence of a character in a character list, or none.
Models the last-colon search inside net.SplitHostPort. -/
def lastIdx : List Char → Char → Option Nat
  | [], _ => none
  | a :: rest, c =>
    match lastIdx rest c with
    | some j => some (j + 1)
    | none => if a = c then some 0 else none

/-- Model of net.SplitHostPort over character lists: splits "host:port" (with
optional brackets around the host), returning the host and port parts or an
error message.  Mirrors the Go implementation branch for branch. -/
def splitHostPortChars (cs : List Char) : Except String (List Char × List Char) :=
  match lastIdx cs ':' with
  | none => .error "missing port in address"
  | some i =>
    if cs.head? = some '[' then
      match cs.findIdx? (fun c => c = ']') with
      | none => .error "missing ']' in address"
      | some endi =>
        if endi + 1 = cs.length then .error "missing port in address"
        else if endi + 1 = i then
          if (cs.drop 1).contains '[' then .error "unexpected '[' in address"
          else if (cs.drop (endi + 1)).contains ']' then .error "unexpected ']' in address"
          else .ok ((cs.take endi).drop 1, cs.drop (i + 1))
        else if cs.get? (endi + 1) = some ':' then .error "too many colons in address"
        else .error "missing port in address"
    else
      if (cs.take i).contains ':' then .error "too many colons in address"
      else if cs.contains '[' then .error "unexpected '[' in address"
      else if cs.contains ']' then .error "unexpected ']' in address"
      else .ok (cs.take i, cs.drop (i + 1))

/-! ### Site (src/site.go lines 15-148) -/

/-- Matcher is used to detect and supply a handler (src/site.go lines 131-135). -/
structure Matcher (α : Type) where
  Match : String → Bool
  Handler : α

/-- Site manages the handling of requests for a particular site
(src/site.go lines 15-21).  The `SPDY` field is referenced by Server.Serve
(src/server.go line 65) but is absent from the Site struct in src/site.go;
it is modelled here as a Bool field that the constructors leave false
(the Go zero value), matching the spec's alternate-protocol opt-in flag. -/
structure Site (α : Type) where
  Name : String
  Port : Int
  SPDY : Bool
  auth : Option (String × String)
  handlers : List (Matcher α)
  notFound : Option α

/-- NewSite builds a new HTTP Site (src/site.go lines 33-40).  The notFound
argument is stored as given, even when it is nil (modelled as none). -/
def NewSite (name : String) (port : Int) (notFound : Option α) : Site α :=
  { Name := name
    Port := port
    SPDY := false
    auth := none
    handlers := []
    notFound := notFound }

/-- NewSecureSite builds a new HTTPS Site (src/site.go lines 52-60). -/
def NewSecureSite (name : String) (port : Int) (certFile keyFile : String)
    (notFound : Option α) : Site α :=
  { Name := name
    Port := port
    SPDY := false
    auth := some (certFile, keyFile)
    handlers := []
    notFound := notFound }

/-- makeMatchFunc (src/site.go lines 140-144): the returned predicate applies
m to the pattern s1 first and the request path s2 second. -/
def makeMatchFunc (s1 : String) (m : String → String → Bool) : String → Bool :=
  fun s2 => m s1 s2

/-- stringEquals (src/site.go lines 146-148). -/
def stringEquals (s1 s2 : String) : Bool :=
  s1 == s2

/-- Always uses the given handler for any request (src/site.go lines 63-66). -/
def Site.Always (s : Site α) (handler : α) : Site α :=
  { s with handlers := s.handlers ++ [⟨fun _ => true, handler⟩] }

/-- Contains registers one matcher per pattern, in order (src/site.go lines 70-75). -/
def Site.Contains (s : Site α) (handler : α) (patterns : List String) : Site α :=
  { s with handlers :=
      s.handlers ++ patterns.map (fun pat => ⟨makeMatchFunc pat goContainsFn, handler⟩) }

/-- Equals registers one matcher per pattern, in order (src/site.go lines 79-84). -/
def Site.Equals (s : Site α) (handler : α) (patterns : List String) : Site α :=
  { s with handlers :=
      s.handlers ++ patterns.map (fun pat => ⟨makeMatchFunc pat stringEquals, handler⟩) }

/-- EqualFold registers one matcher per pattern, in order (src/site.go lines 88-93). -/
def Site.EqualFold (s : Site α) (handler : α) (patterns : List String) : Site α :=
  { s with handlers :=
      s.handlers ++ patterns.map (fun pat => ⟨makeMatchFunc pat goEqualFoldFn, handler⟩) }

/-- HasPrefix registers one matcher per pattern, in order (src/site.go lines 97-102). -/
def Site.HasPrefix (s : Site α) (handler : α) (patterns : List String) : Site α :=
  { s with handlers :=
      s.handlers ++ patterns.map (fun pat => ⟨makeMatchFunc pat goHasPrefixFn, handler⟩) }

/-- HasSuffix registers one matcher per pattern, in order (src/site.go lines 106-111). -/
def Site.HasSuffix (s : Site α) (handler : α) (patterns : List String) : Site α :=
  { s with handlers :=
      s.handlers ++ patterns.map (fun pat => ⟨makeMatchFunc pat goHasSuffixFn, handler⟩) }

/-- Match registers a custom predicate (src/site.go lines 115-117). -/
def Site.Match (s : Site α) (handler : α) (matchFunc : String → Bool) : Site α :=
  { s with handlers := s.handlers ++ [⟨matchFunc, handler⟩] }

/-- Outcome of dispatching one request to a Site: which handler is invoked, or
the runtime panic from calling a nil notFound handler. -/
inductive SiteResult (α : Type) where
  | handler (h : α)
  | notFound (h : α)
  | panicNilNotFound
deriving DecidableEq

/-- Site.ServeHTTP (src/site.go lines 120-129): try the matchers in order
against the request path; the first match wins; otherwise call s.notFound,
which is a nil-function panic when no handler was set. -/
def Site.ServeHTTP (s : Site α) (path : String) : SiteResult α :=
  match s.handlers.find? (fun m => m.Match path) with
  | some m => .handler m.Handler
  | none =>
    match s.notFound with
    | some nf => .notFound nf
    | none => .panicNilNotFound

/-! ### ReverseProxy (src/site.go lines 159-212) -/

/-- ReverseProxy serves multiple domains on the same port
(src/site.go lines 159-162).  The Go map from domain to handler is modelled
as an association list with unique keys; Go map iteration order is
unspecified, modelled here as the list order. -/
structure ReverseProxy (α : Type) where
  proxy : List (String × α)
  NotFound : Option α

/-- NewProxy (src/site.go lines 164-168): empty registrations, nil NotFound. -/
def NewProxy : ReverseProxy α :=
  { proxy := [], NotFound := none }

/-- Outcome of a registration call: the updated proxy, or the panic raised
when the domain key already exists, carrying the (unchanged) proxy state. -/
inductive RegisterResult (α : Type) where
  | ok (state : ReverseProxy α)
  | panicked (msg : String) (state : ReverseProxy α)

/-- Register (src/site.go lines 172-177): panics when the domain is already
assigned, otherwise inserts the mapping. -/
def ReverseProxy.Register (p : ReverseProxy α) (domain : String) (h : α) :
    RegisterResult α :=
  if domain ∈ p.proxy.map Prod.fst then
    .panicked "Domain already registered." p
  else
    .ok { p with proxy := p.proxy ++ [(domain, h)] }

/-- RegisterSite (src/site.go lines 181-186): like Register, keyed by the
site's Name and mapping to the Site itself. -/
def ReverseProxy.RegisterSite (p : ReverseProxy (Site α)) (site : Site α) :
    RegisterResult (Site α) :=
  if site.Name ∈ p.proxy.map Prod.fst then
    .panicked "Domain already registered." p
  else
    .ok { p with proxy := p.proxy ++ [(site.Name, site)] }

/-- Outcome of dispatching one request through a ReverseProxy: a registered
handler, the NotFound handler, or no response at all (NotFound nil). -/
inductive RPResult (α : Type) where
  | handler (h : α)
  | notFound (h : α)
  | noResponse
deriving DecidableEq

/-- Suffix scan over the registrations (src/site.go lines 202-207), then the
NotFound fallback (src/site.go lines 209-211). -/
def ReverseProxy.scan (p : ReverseProxy α) (host : List Char) : RPResult α :=
  match p.proxy.find? (fun d => List.isSuffixOf d.1.data host) with
  | some d => .handler d.2
  | none =>
    match p.NotFound with
    | some nf => .notFound nf
    | none => .noResponse

/-- ReverseProxy.ServeHTTP (src/site.go lines 189-212): when the Host header
contains a colon, split host from port; a split failure falls back to the
NotFound handler (or no response); otherwise scan the registered domains for
a textual suffix match on the host. -/
def ReverseProxy.ServeHTTP (p : ReverseProxy α) (hostHdr : String) : RPResult α :=
  if hostHdr.data.contains ':' then
    match splitHostPortChars hostHdr.data with
    | .error _ =>
      match p.NotFound with
      | some nf => .notFound nf
      | none => .noResponse
    | .ok hp => p.scan hp.1
  else
    p.scan hostHdr.data

/-! ### Server (src/server.go) -/

/-- Environment of external effectful collaborators of Server.Serve:
tls.LoadX509KeyPair and net.Listen.  A some result is the non-nil Go error
returned by the call; none means the call succeeded. -/
structure Env where
  load : String → String → Option String
  listen : Int → Option String

/-- Kind of an observable startup step performed by Server.Serve. -/
inductive EffKind where
  | register (name : String)
  | loadCert (certFile keyFile : String)
  | bind
  | spawnMulti (tls : Bool)
  | spawnSingle (spdy tls : Bool)
deriving DecidableEq

/-- One observable startup step, tagged with the port it concerns. -/
structure Effect where
  port : Int
  kind : EffKind
deriving DecidableEq

/-- Listener-creating effects: a socket bind or the spawn of a listener task. -/
def isListenKind : EffKind → Bool
  | .bind => true
  | .spawnMulti _ => true
  | .spawnSingle _ _ => true
  | _ => false

/-- Outcome of processing one port group inside Server.Serve. -/
inductive GroupOutcome where
  | started
  | errored (msg : String)
  | panicked (msg : String)
deriving DecidableEq

/-- Outcome of the startup loop of Server.Serve. -/
inductive StartOutcome where
  | ok
  | err (msg : String)
  | panicked (msg : String)
deriving DecidableEq

/-- Append a port to the list of seen ports unless already present. -/
def insertPort (ps : List Int) (p : Int) : List Int :=
  if p ∈ ps then ps else ps ++ [p]

/-- Ports of the sites, first-seen order.  Go's portMap is an unordered map;
the model fixes one admissible iteration order. -/
def portList (sites : List (Site α)) : List Int :=
  sites.foldl (fun ps s => insertPort ps s.Port) []

/-- The port groups of src/server.go lines 49-56: sites collected by port,
preserving the append order within each group. -/
def portGroups (sites : List (Site α)) : List (Int × List (Site α)) :=
  (portList sites).map (fun p => (p, sites.filter (fun s => s.Port == p)))

/-- The registration-and-certificate loop of src/server.go lines 90-99:
register each site in the group's proxy (panicking on a duplicate name), and
when the group uses TLS load each site's certificate pair, aborting on the
first load error.  Returns the observable effects and an abort outcome. -/
def regLoad (env : Env) (port : Int) (auth : Bool) :
    List (Site α) → ReverseProxy (Site α) → List Effect × Option GroupOutcome
  | [], _ => ([], none)
  | site :: rest, proxy =>
    match proxy.RegisterSite site with
    | .panicked msg _ => ([], some (.panicked msg))
    | .ok proxy2 =>
      let e1 : Effect := ⟨port, .register site.Name⟩
      if auth then
        match site.auth with
        | none => ([e1], some (.panicked "runtime error: index out of range"))
        | some ck =>
          match env.load ck.1 ck.2 with
          | some msg => ([e1], some (.errored msg))
          | none =>
            let r := regLoad env port auth rest proxy2
            (e1 :: ⟨port, .loadCert ck.1 ck.2⟩ :: r.1, r.2)
      else
        let r := regLoad env port auth rest proxy2
        (e1 :: r.1, r.2)

/-- Processing of one port group (src/server.go lines 59-119): a single site
spawns a dedicated listener task; a larger group is checked for uniform TLS
presence, then its proxy is built, certificates are loaded, the socket is
bound, and the multiplexed listener task is spawned. -/
def serveGroup (env : Env) (port : Int) (g : List (Site α)) :
    List Effect × GroupOutcome :=
  match g with
  | [] => ([], .started)
  | [site] =>
    ([⟨site.Port, .spawnSingle site.SPDY site.auth.isSome⟩], .started)
  | s0 :: s1 :: rest =>
    if (s1 :: rest).any (fun s => s.auth.isSome != s0.auth.isSome) then
      ([], .errored "Multiple sites on the same port with mixed HTTPS usage.")
    else
      match regLoad env port s0.auth.isSome (s0 :: s1 :: rest) NewProxy with
      | (es, some (.errored msg)) => (es, .errored msg)
      | (es, some (.panicked msg)) => (es, .panicked msg)
      | (es, some .started) => (es, .started)
      | (es, none) =>
        match env.listen port with
        | some msg => (es, .errored msg)
        | none => (es ++ [⟨port, .bind⟩, ⟨port, .spawnMulti s0.auth.isSome⟩], .started)

/-- The startup loop over all port groups (src/server.go lines 59-120): stop
at the first returned error or escaped panic; effects of groups already
processed are retained (their listener tasks keep running). -/
def serveGroups (env : Env) : List (Int × List (Site α)) → List Effect × StartOutcome
  | [] => ([], .ok)
  | pg :: rest =>
    match serveGroup env pg.1 pg.2 with
    | (es, .started) =>
      let r := serveGroups env rest
      (es ++ r.1, r.2)
    | (es, .errored msg) => (es, .err msg)
    | (es, .panicked msg) => (es, .panicked msg)

/-- Server holds the attached sites (src/server.go lines 15-17). -/
structure Server (α : Type) where
  sites : List (Site α)

/-- NewServer (src/server.go lines 20-24). -/
def NewServer : Server α :=
  ⟨[]⟩

/-- NewServerFromSites (src/server.go lines 28-32). -/
def NewServerFromSites (sites : List (Site α)) : Server α :=
  ⟨sites⟩

/-- Add (src/server.go lines 37-40). -/
def Server.Add (s : Server α) (site : Site α) : Server α :=
  ⟨s.sites ++ [site]⟩

/-- The startup phase of Server.Serve (src/server.go lines 45-120): group the
sites by port and process each group. -/
def Server.Serve (s : Server α) (env : Env) : List Effect × StartOutcome :=
  serveGroups env (portGroups s.sites)

/-- A listener task's sends on the fan-in error channel
(src/server.go lines 126-155): the loop result is sent only when it is a
non-nil error. -/
def taskSend (loopErr : Option String) : List String :=
  match loopErr with
  | some msg => [msg]
  | none => []

/-- What the blocking call to Server.Serve ultimately does: return a Go error
value, let a registration panic escape, or block forever. -/
inductive ServeReturn where
  | ret (e : Option String)
  | panicked (msg : String)
  | blocked
deriving DecidableEq

/-- Full model of Server.Serve's return value (src/server.go line 123): a
startup error is returned directly; otherwise Serve blocks on the error
channel, returning the first value any listener task sends.  loopErrs are
the listener tasks' serve-loop results (none = the loop never failed). -/
def serveResult (env : Env) (s : Server α) (loopErrs : List (Option String)) :
    ServeReturn :=
  match (s.Serve env).2 with
  | .err msg => .ret (some msg)
  | .panicked msg => .panicked msg
  | .ok =>
    match ((loopErrs.map taskSend).flatten).head? with
    | some msg => .ret (some msg)
    | none => .blocked

/-! ### General lemmas -/

/-- find? over a decomposition whose first part rejects and whose middle
element is accepted returns the middle element, whatever follows it. -/
theorem lemma_find_first {β : Type} (q : β → Bool) (pre : List β) (m : β) (post : List β)
    (h1 : ∀ x ∈ pre, q x = false) (h2 : q m = true) :
    (pre ++ m :: post).find? q = some m := by
  induction pre with
  | nil => simp [List.find?, h2]
  | cons a t ih =>
    have ha : q a = false := h1 a (List.mem_cons_self a t)
    simp only [List.cons_append, List.find?, ha]
    exact ih (fun x hx => h1 x (List.mem_cons_of_mem a hx))

/-! ### Claim C2 -/

/-- C2: dispatch evaluates the matcher chain in registration (append) order
against the request path; the handler of the first entry whose predicate
accepts the path is invoked, whatever entries (including duplicates) follow
it; if no entry matches, the stored notFound handler is invoked (a nil-call
panic when none was set).  The chain is used exactly as stored, never sorted
or deduplicated: the conclusion depends only on the decomposition. -/
theorem claim_c2 (s : Site α) (path : String) :
    (∀ pre m post, s.handlers = pre ++ m :: post →
      (∀ m2 ∈ pre, m2.Match path = false) → m.Match path = true →
      s.ServeHTTP path = .handler m.Handler)
    ∧ ((∀ m2 ∈ s.handlers, m2.Match path = false) →
      s.ServeHTTP path =
        match s.notFound with
        | some nf => .notFound nf
        | none => .panicNilNotFound) := by
  constructor
  · intro pre m post hdec hpre hm
    unfold Site.ServeHTTP
    rw [hdec, lemma_find_first (fun m2 => m2.Match path) pre m post hpre hm]
  · intro hall
    unfold Site.ServeHTTP
    rw [List.find?_eq_none.mpr (by intro x hx; simp [hall x hx])]

/-- Witness for C2 at a concrete two-entry chain and at an empty chain. -/
theorem claim_c2_witness :
    Site.ServeHTTP (Site.Always (Site.Match (NewSite "w" 80 (some 9)) 5
        (fun q => q == "/a")) 6) "/a" = .handler 5
    ∧ Site.ServeHTTP (NewSite "w" 80 (some 9) : Site Nat) "/zz" = .notFound 9 := by
  constructor
  · exact (claim_c2 _ "/a").1 [] ⟨fun q => q == "/a", 5⟩ [⟨fun _ => true, 6⟩] rfl
      (by intro m2 hm2; exact absurd hm2 (List.not_mem_nil m2)) (by decide)
  · exact (claim_c2 (NewSite "w" 80 (some 9)) "/zz").2
      (by intro m2 hm2; exact absurd hm2 (List.not_mem_nil m2))

/-! ### Claim C3 -/

/-- Concrete site of claim C3: matchers registered in order
[HasPrefix "/img/" mapping to handler 11, Always mapping to handler 22]. -/
def siteC3 : Site Nat :=
  Site.Always (Site.HasPrefix (NewSite "example.com" 80 (some 99)) 11 ["/img/"]) 22

/-- C3 evaluated on the code: a request for "/img/logo.png" dispatches to the
always-handler 22, not to the has-prefix handler 11, because makeMatchFunc
passes the pattern as the string and the path as the prefix argument of
strings.HasPrefix (src/site.go lines 140-144), the reverse of what the doc
comment of Site.HasPrefix (src/site.go lines 95-96) states.  A request for
"/about" dispatches to 22 as the claim says. -/
theorem claim_c3_code_eval :
    siteC3.ServeHTTP "/img/logo.png" = .handler 22
    ∧ siteC3.ServeHTTP "/img/logo.png" ≠ .handler 11
    ∧ siteC3.ServeHTTP "/about" = .handler 22 := by
  refine ⟨by decide, by decide, by decide⟩

/-! ### Claim C4 -/

/-- C4: with the single registration mapping "example.com" to handler A, a
request with Host "api.example.com" dispatches to A, and so does a request
with Host "evilexample.com": the match is a purely textual suffix match on
the host string with no label-boundary check. -/
theorem claim_c4 (A : α) (nf : Option α) :
    ReverseProxy.ServeHTTP ⟨[("example.com", A)], nf⟩ "api.example.com" = .handler A
    ∧ ReverseProxy.ServeHTTP ⟨[("example.com", A)], nf⟩ "evilexample.com" = .handler A := by
  constructor <;> rfl

/-! ### Claim C5 -/

/-- C5: registering an absent key inserts the mapping and succeeds;
registering a present key panics (an unrecoverable abort, not a returned
error) with the registration map unchanged; and likewise for RegisterSite,
which keys by the site's name. -/
theorem claim_c5 (p : ReverseProxy α) (domain : String) (h : α)
    (q : ReverseProxy (Site β)) (site : Site β) :
    (domain ∉ p.proxy.map Prod.fst →
      p.Register domain h = .ok ⟨p.proxy ++ [(domain, h)], p.NotFound⟩)
    ∧ (domain ∈ p.proxy.map Prod.fst →
      p.Register domain h = .panicked "Domain already registered." p)
    ∧ (site.Name ∉ q.proxy.map Prod.fst →
      q.RegisterSite site = .ok ⟨q.proxy ++ [(site.Name, site)], q.NotFound⟩)
    ∧ (site.Name ∈ q.proxy.map Prod.fst →
      q.RegisterSite site = .panicked "Domain already registered." q) := by
  refine ⟨fun hn => ?_, fun hm => ?_, fun hn => ?_, fun hm => ?_⟩ <;>
    simp [ReverseProxy.Register, ReverseProxy.RegisterSite, *]

/-- Concrete proxy for the C5 witness. -/
def proxyC5 : ReverseProxy Nat := ⟨[("x", 1)], none⟩

/-- Concrete site for the C5 witness. -/
def siteC5a : Site Nat := NewSite "a" 80 none

/-- Concrete site proxy for the C5 witness. -/
def proxyC5b : ReverseProxy (Site Nat) := ⟨[("a", siteC5a)], none⟩

/-- Concrete second site for the C5 witness. -/
def siteC5b : Site Nat := NewSite "b" 81 none

/-- Witness for C5 exercising all four branches at concrete inputs. -/
theorem claim_c5_witness :
    ReverseProxy.Register proxyC5 "y" 2 = .ok ⟨[("x", 1), ("y", 2)], none⟩
    ∧ ReverseProxy.Register proxyC5 "x" 2 = .panicked "Domain already registered." proxyC5
    ∧ ReverseProxy.RegisterSite proxyC5b siteC5b = .ok ⟨[("a", siteC5a), ("b", siteC5b)], none⟩
    ∧ ReverseProxy.RegisterSite proxyC5b siteC5a
        = .panicked "Domain already registered." proxyC5b := by
  refine ⟨?_, ?_, ?_, ?_⟩
  · exact (claim_c5 proxyC5 "y" 2 proxyC5b siteC5b).1 (by decide)
  · exact (claim_c5 proxyC5 "x" 2 proxyC5b siteC5b).2.1 (by decide)
  · exact (claim_c5 proxyC5 "y" 2 proxyC5b siteC5b).2.2.1 (by decide)
  · exact (claim_c5 proxyC5 "y" 2 proxyC5b siteC5a).2.2.2 (by decide)

/-! ### Claim C6 -/

/-- C6: a request whose Host contains a colon but fails host/port splitting
is routed to the configured NotFound handler; it never reaches a registered
domain handler and is never a fatal outcome (the dispatch result type has no
fatal case: the error is consumed by the fallback branch). -/
theorem claim_c6 (p : ReverseProxy α) (nf : α) (host : String) (e : String)
    (hnf : p.NotFound = some nf)
    (hc : host.data.contains ':' = true)
    (hsplit : splitHostPortChars host.data = .error e) :
    p.ServeHTTP host = .notFound nf ∧ ∀ hd, p.ServeHTTP host ≠ .handler hd := by
  have h1 : p.ServeHTTP host = .notFound nf := by
    unfold ReverseProxy.ServeHTTP
    rw [hc, hsplit, hnf]
    rfl
  exact ⟨h1, fun hd hcon => by rw [h1] at hcon; exact RPResult.noConfusion hcon⟩

/-- Concrete proxy for the C6 witness. -/
def proxyC6 : ReverseProxy Nat := ⟨[("example.com", 7)], some 42⟩

/-- Witness for C6 at the malformed host "a:b:c". -/
theorem claim_c6_witness :
    ReverseProxy.ServeHTTP proxyC6 "a:b:c" = .notFound 42
    ∧ ∀ hd, ReverseProxy.ServeHTTP proxyC6 "a:b:c" ≠ .handler hd :=
  claim_c6 proxyC6 42 "a:b:c" "too many colons in address" rfl (by decide) rfl

/-! ### Claim C8 -/

/-- C8 evaluated on the code: a Site created by NewSite with a nil notFound
handler stores the nil handler as-is (src/site.go lines 33-40, despite the
doc comment saying http.NotFoundHandler is used instead), so a request
matching no entry calls the nil function and panics, producing no standard
not-found response. -/
theorem claim_c8_code_eval :
    Site.ServeHTTP (NewSite "example.com" 80 none : Site Nat) "/missing"
      = .panicNilNotFound
    ∧ ∀ h, Site.ServeHTTP (NewSite "example.com" 80 none : Site Nat) "/missing"
      ≠ .notFound h := by
  refine ⟨rfl, ?_⟩
  intro h hcon
  exact SiteResult.noConfusion hcon

/-! ### Port-grouping lemmas -/

/-- TLS-credential presence in a group is not uniform. -/
def mixedTLS (g : List (Site α)) : Prop :=
  (∃ s ∈ g, s.auth.isSome = true) ∧ (∃ s ∈ g, s.auth = none)

/-- The port list never contains duplicates. -/
theorem lemma_portList_nodup (sites : List (Site α)) : (portList sites).Nodup := by
  suffices h : ∀ (l : List (Site α)) (acc : List Int), acc.Nodup →
      (l.foldl (fun ps s => insertPort ps s.Port) acc).Nodup by
    exact h sites [] List.nodup_nil
  intro l
  induction l with
  | nil => intro acc hacc; simpa using hacc
  | cons s rest ih =>
    intro acc hacc
    simp only [List.foldl_cons]
    apply ih
    unfold insertPort
    split
    · exact hacc
    · rename_i hnot
      simp [List.nodup_append, hacc, hnot]

/-- The group keys are exactly the port list. -/
theorem lemma_portGroups_fst (sites : List (Site α)) :
    (portGroups sites).map Prod.fst = portList sites := by
  unfold portGroups
  rw [List.map_map]
  exact List.map_id' (portList sites)

/-- A port group's members all carry the group's port. -/
theorem lemma_portGroups_ports {q : Int} {h : List (Site α)} (sites : List (Site α))
    (hm : (q, h) ∈ portGroups sites) : ∀ t ∈ h, t.Port = q := by
  unfold portGroups at hm
  obtain ⟨p2, _, heq⟩ := List.mem_map.mp hm
  injection heq with h1 h2
  subst h1
  intro t ht
  rw [← h2] at ht
  have := (List.mem_filter.mp ht).2
  exact eq_of_beq this

/-! ### regLoad lemmas -/

/-- Every effect emitted by the registration-and-certificate loop concerns
the group's port and is not a listener-creating effect. -/
theorem lemma_regLoad_effects (env : Env) (port : Int) (auth : Bool) :
    ∀ (l : List (Site α)) (proxy : ReverseProxy (Site α)) (e : Effect),
      e ∈ (regLoad env port auth l proxy).1 →
      e.port = port ∧ isListenKind e.kind = false := by
  intro l
  induction l with
  | nil => intro proxy e he; simp [regLoad] at he
  | cons site rest ih =>
    intro proxy e he
    simp only [regLoad, ReverseProxy.RegisterSite] at he
    by_cases hreg : site.Name ∈ proxy.proxy.map Prod.fst
    · rw [if_pos hreg] at he
      dsimp only [] at he
      exact absurd he (List.not_mem_nil e)
    · rw [if_neg hreg] at he
      dsimp only [] at he
      cases auth with
      | false =>
        rw [if_neg (by decide)] at he
        rcases List.mem_cons.mp he with heq | he2
        · subst heq; exact ⟨rfl, rfl⟩
        · exact ih _ e he2
      | true =>
        rw [if_pos (by decide)] at he
        cases hau : site.auth with
        | none =>
          rw [hau] at he
          dsimp only [] at he
          rcases List.mem_cons.mp he with heq | he2
          · subst heq; exact ⟨rfl, rfl⟩
          · exact absurd he2 (List.not_mem_nil e)
        | some ck =>
          rw [hau] at he
          dsimp only [] at he
          cases hld : env.load ck.1 ck.2 with
          | some msg =>
            rw [hld] at he
            dsimp only [] at he
            rcases List.mem_cons.mp he with heq | he2
            · subst heq; exact ⟨rfl, rfl⟩
            · exact absurd he2 (List.not_mem_nil e)
          | none =>
            rw [hld] at he
            dsimp only [] at he
            rcases List.mem_cons.mp he with heq | he2
            · subst heq; exact ⟨rfl, rfl⟩
            · rcases List.mem_cons.mp he2 with heq2 | he3
              · subst heq2; exact ⟨rfl, rfl⟩
              · exact ih _ e he3

/-- When the group is uniformly TLS, the sites before the failing one
register and load cleanly, and the first failing certificate load aborts the
loop with exactly that load error. -/
theorem lemma_regLoad_certfail (env : Env) (port : Int) :
    ∀ (pre : List (Site α)) (s : Site α) (post : List (Site α))
      (proxy : ReverseProxy (Site α)) (c k msg : String),
      (∀ u ∈ pre ++ [s], u.Name ∉ proxy.proxy.map Prod.fst) →
      ((pre ++ [s]).map Site.Name).Nodup →
      (∀ u ∈ pre, ∀ cu ku, u.auth = some (cu, ku) → env.load cu ku = none) →
      (∀ u ∈ pre, u.auth.isSome = true) →
      s.auth = some (c, k) → env.load c k = some msg →
      (regLoad env port true (pre ++ s :: post) proxy).2 = some (.errored msg) := by
  intro pre
  induction pre with
  | nil =>
    intro s post proxy c k msg hnot _ _ _ hs hf
    have hreg : s.Name ∉ proxy.proxy.map Prod.fst := hnot s (by simp)
    simp only [List.nil_append, regLoad, ReverseProxy.RegisterSite]
    rw [if_neg hreg]
    dsimp only []
    rw [if_pos (by decide), hs]
    dsimp only []
    rw [hf]
  | cons t pre2 ih =>
    intro s post proxy c k msg hnot hnd hld hau hs hf
    have hreg : t.Name ∉ proxy.proxy.map Prod.fst := hnot t (by simp)
    obtain ⟨ck, hck⟩ := Option.isSome_iff_exists.mp (hau t (List.mem_cons_self t pre2))
    have hldt : env.load ck.1 ck.2 = none := hld t (List.mem_cons_self t pre2) ck.1 ck.2 hck
    simp only [List.cons_append, regLoad, ReverseProxy.RegisterSite]
    rw [if_neg hreg]
    dsimp only []
    rw [if_pos (by decide), hck]
    dsimp only []
    rw [hldt]
    dsimp only []
    apply ih
    · intro u hu
      simp only [List.map_append, List.map_cons, List.map_nil]
      intro hmem
      rcases List.mem_append.mp hmem with hold | hnew
      · exact hnot u (List.mem_cons_of_mem t hu) hold
      · have hun : u.Name = t.Name := List.mem_singleton.mp hnew
        have ht2 : t.Name ∉ (pre2 ++ [s]).map Site.Name := by
          simp only [List.cons_append, List.map_cons] at hnd
          exact (List.nodup_cons.mp hnd).1
        exact ht2 (hun ▸ List.mem_map.mpr ⟨u, hu, rfl⟩)
    · simp only [List.cons_append, List.map_cons] at hnd
      exact (List.nodup_cons.mp hnd).2
    · intro u hu cu ku hcku
      exact hld u (List.mem_cons_of_mem t hu) cu ku hcku
    · intro u hu
      exact hau u (List.mem_cons_of_mem t hu)
    · exact hs
    · exact hf

/-- When the group is uniformly TLS, registrations are fresh, and every
certificate load succeeds, the loop completes without aborting. -/
theorem lemma_regLoad_allok (env : Env) (port : Int) :
    ∀ (l : List (Site α)) (proxy : ReverseProxy (Site α)),
      (∀ u ∈ l, u.Name ∉ proxy.proxy.map Prod.fst) →
      (l.map Site.Name).Nodup →
      (∀ u ∈ l, ∀ cu ku, u.auth = some (cu, ku) → env.load cu ku = none) →
      (∀ u ∈ l, u.auth.isSome = true) →
      (regLoad env port true l proxy).2 = none := by
  intro l
  induction l with
  | nil => intro proxy _ _ _ _; rfl
  | cons t rest ih =>
    intro proxy hnot hnd hld hau
    have hreg : t.Name ∉ proxy.proxy.map Prod.fst := hnot t (List.mem_cons_self t rest)
    obtain ⟨ck, hck⟩ := Option.isSome_iff_exists.mp (hau t (List.mem_cons_self t rest))
    have hldt : env.load ck.1 ck.2 = none := hld t (List.mem_cons_self t rest) ck.1 ck.2 hck
    simp only [regLoad, ReverseProxy.RegisterSite]
    rw [if_neg hreg]
    dsimp only []
    rw [if_pos (by decide), hck]
    dsimp only []
    rw [hldt]
    dsimp only []
    apply ih
    · intro u hu
      simp only [List.map_append, List.map_cons, List.map_nil]
      intro hmem
      rcases List.mem_append.mp hmem with hold | hnew
      · exact hnot u (List.mem_cons_of_mem t hu) hold
      · have hun : u.Name = t.Name := List.mem_singleton.mp hnew
        have ht2 : t.Name ∉ rest.map Site.Name := by
          simp only [List.map_cons] at hnd
          exact (List.nodup_cons.mp hnd).1
        exact ht2 (hun ▸ List.mem_map.mpr ⟨u, hu, rfl⟩)
    · simp only [List.map_cons] at hnd
      exact (List.nodup_cons.mp hnd).2
    · intro u hu cu ku hcku
      exact hld u (List.mem_cons_of_mem t hu) cu ku hcku
    · intro u hu
      exact hau u (List.mem_cons_of_mem t hu)

/-- In a plain (non-TLS) group whose names collide (amongst themselves or
with already-registered keys), the registration loop panics. -/
theorem lemma_regLoad_dup (env : Env) (port : Int) :
    ∀ (l : List (Site α)) (proxy : ReverseProxy (Site α)),
      ((∃ t ∈ l, t.Name ∈ proxy.proxy.map Prod.fst) ∨ ¬ (l.map Site.Name).Nodup) →
      (regLoad env port false l proxy).2 = some (.panicked "Domain already registered.") := by
  intro l
  induction l with
  | nil =>
    intro proxy hbad
    rcases hbad with ⟨t, ht, _⟩ | hnd
    · exact absurd ht (List.not_mem_nil t)
    · simp at hnd
  | cons t rest ih =>
    intro proxy hbad
    by_cases hreg : t.Name ∈ proxy.proxy.map Prod.fst
    · simp only [regLoad, ReverseProxy.RegisterSite]
      rw [if_pos hreg]
    · simp only [regLoad, ReverseProxy.RegisterSite]
      rw [if_neg hreg]
      dsimp only []
      rw [if_neg (by decide)]
      apply ih
      rcases hbad with ⟨u, hu, hum⟩ | hnd
      · rcases List.mem_cons.mp hu with heq | hu2
        · subst heq; exact absurd hum hreg
        · refine Or.inl ⟨u, hu2, ?_⟩
          simp only [List.map_append, List.map_cons, List.map_nil]
          exact List.mem_append.mpr (Or.inl hum)
      · by_cases hmem : t.Name ∈ rest.map Site.Name
        · obtain ⟨u, hu, hun⟩ := List.mem_map.mp hmem
          refine Or.inl ⟨u, hu, ?_⟩
          simp only [List.map_append, List.map_cons, List.map_nil]
          exact List.mem_append.mpr (Or.inr (by simp [hun]))
        · refine Or.inr ?_
          intro hnd2
          apply hnd
          simp only [List.map_cons, List.nodup_cons]
          exact ⟨hmem, hnd2⟩

/-! ### Group-level lemmas -/

/-- A group of two or more sites with mixed TLS presence fails the uniform
check at once: no effect is performed and the mixed-usage error is returned. -/
theorem lemma_group_mixed (env : Env) (port : Int) (g : List (Site α))
    (hlen : 2 ≤ g.length) (hmix : mixedTLS g) :
    serveGroup env port g
      = ([], .errored "Multiple sites on the same port with mixed HTTPS usage.") := by
  cases g with
  | nil => simp at hlen
  | cons s0 g2 =>
    cases g2 with
    | nil => simp at hlen
    | cons s1 rest =>
      have hany : (s1 :: rest).any (fun s => s.auth.isSome != s0.auth.isSome) = true := by
        obtain ⟨⟨sa, hsa, ha⟩, ⟨sb, hsb, hb⟩⟩ := hmix
        cases h0 : s0.auth with
        | none =>
          have hsa2 : sa ∈ s1 :: rest := by
            rcases List.mem_cons.mp hsa with heq | h2
            · subst heq; rw [h0] at ha; simp at ha
            · exact h2
          refine List.any_eq_true.mpr ⟨sa, hsa2, ?_⟩
          rw [ha]
          rfl
        | some ck =>
          have hsb2 : sb ∈ s1 :: rest := by
            rcases List.mem_cons.mp hsb with heq | h2
            · subst heq; rw [hb] at h0; cases h0
            · exact h2
          refine List.any_eq_true.mpr ⟨sb, hsb2, ?_⟩
          rw [hb]
          rfl
      simp only [serveGroup]
      rw [if_pos hany]

/-- If every member has the same TLS presence as the head, the mixed-usage
check passes. -/
theorem lemma_any_false_of_uniform (s0 : Site α) (l : List (Site α))
    (h : ∀ t ∈ l, t.auth.isSome = s0.auth.isSome) :
    l.any (fun s => s.auth.isSome != s0.auth.isSome) = false := by
  refine List.any_eq_false.mpr ?_
  intro t ht
  rw [h t ht]
  simp

/-- A uniform multi-site group whose registration loop aborts yields the
abort as the group outcome, with exactly the loop's effects. -/
theorem lemma_group_abort (env : Env) (port : Int) (s0 s1 : Site α) (rest : List (Site α))
    (hany : (s1 :: rest).any (fun s => s.auth.isSome != s0.auth.isSome) = false)
    (es : List Effect) (ab : GroupOutcome)
    (hrl : regLoad env port s0.auth.isSome (s0 :: s1 :: rest) NewProxy = (es, some ab)) :
    serveGroup env port (s0 :: s1 :: rest) = (es, ab) := by
  simp only [serveGroup]
  rw [if_neg (by rw [hany]; simp), hrl]
  cases ab <;> rfl

/-- A uniform multi-site group whose registration loop completes but whose
socket bind fails yields that bind error, with exactly the loop's effects. -/
theorem lemma_group_listenfail (env : Env) (port : Int) (s0 s1 : Site α)
    (rest : List (Site α))
    (hany : (s1 :: rest).any (fun s => s.auth.isSome != s0.auth.isSome) = false)
    (es : List Effect)
    (hrl : regLoad env port s0.auth.isSome (s0 :: s1 :: rest) NewProxy = (es, none))
    (msg : String) (hlst : env.listen port = some msg) :
    serveGroup env port (s0 :: s1 :: rest) = (es, .errored msg) := by
  simp only [serveGroup]
  rw [if_neg (by rw [hany]; simp), hrl]
  dsimp only []
  rw [hlst]

/-- Every effect emitted while processing a group whose members carry the
group's port also carries that port. -/
theorem lemma_serveGroup_effects (env : Env) (q : Int) (g : List (Site α))
    (hp : ∀ t ∈ g, t.Port = q) :
    ∀ e ∈ (serveGroup env q g).1, e.port = q := by
  cases g with
  | nil => intro e he; simp [serveGroup] at he
  | cons s0 g2 =>
    cases g2 with
    | nil =>
      intro e he
      simp only [serveGroup] at he
      rw [List.mem_singleton] at he
      subst he
      exact hp s0 (List.mem_cons_self s0 [])
    | cons s1 rest =>
      intro e he
      simp only [serveGroup] at he
      by_cases hany : (s1 :: rest).any (fun s => s.auth.isSome != s0.auth.isSome) = true
      · rw [if_pos hany] at he
        exact absurd he (List.not_mem_nil e)
      · rw [if_neg hany] at he
        cases hrl : regLoad env q s0.auth.isSome (s0 :: s1 :: rest) NewProxy with
        | mk es ab =>
          rw [hrl] at he
          have hes : ∀ e2 ∈ es, e2.port = q := by
            intro e2 he2
            exact (lemma_regLoad_effects env q s0.auth.isSome (s0 :: s1 :: rest) NewProxy e2
              (by rw [hrl]; exact he2)).1
          cases ab with
          | some ab2 =>
            cases ab2 with
            | errored msg => dsimp only [] at he; exact hes e he
            | panicked msg => dsimp only [] at he; exact hes e he
            | started => dsimp only [] at he; exact hes e he
          | none =>
            dsimp only [] at he
            cases hlst : env.listen q with
            | some msg =>
              rw [hlst] at he
              dsimp only [] at he
              exact hes e he
            | none =>
              rw [hlst] at he
              dsimp only [] at he
              rcases List.mem_append.mp he with h1 | h2
              · exact hes e h1
              · rcases List.mem_cons.mp h2 with heq | h3
                · subst heq; rfl
                · rcases List.mem_cons.mp h3 with heq | h4
                  · subst heq; rfl
                  · exact absurd h4 (List.not_mem_nil e)

/-! ### serveGroups lemmas -/

/-- When a prefix of groups all start, the loop's outcome is the outcome on
the remaining groups and the prefix contributes exactly its own effects. -/
theorem lemma_serveGroups_started (env : Env) (gs1 gs2 : List (Int × List (Site α)))
    (hst : ∀ q h, (q, h) ∈ gs1 → (serveGroup env q h).2 = .started) :
    (serveGroups env (gs1 ++ gs2)).2 = (serveGroups env gs2).2
    ∧ (serveGroups env (gs1 ++ gs2)).1
        = (gs1.map (fun qh => (serveGroup env qh.1 qh.2).1)).flatten
          ++ (serveGroups env gs2).1 := by
  induction gs1 with
  | nil => simp
  | cons qh rest ih =>
    cases hsg : serveGroup env qh.1 qh.2 with
    | mk es o =>
      have ho : o = .started := by
        have := hst qh.1 qh.2 (List.mem_cons_self qh rest)
        rw [hsg] at this
        exact this
      subst ho
      have ih2 := ih (fun q h hm => hst q h (List.mem_cons_of_mem qh hm))
      constructor
      · rw [List.cons_append]
        simp only [serveGroups]
        rw [hsg]
        exact ih2.1
      · rw [List.cons_append]
        simp only [serveGroups]
        rw [hsg]
        dsimp only []
        rw [ih2.2, List.map_cons, List.flatten_cons, List.append_assoc, hsg]

/-- When a mixed group is present, the startup loop never completes, and no
effect for that group's port is ever performed. -/
theorem lemma_serve_mixed (env : Env) :
    ∀ (gs : List (Int × List (Site α))) (p : Int) (g : List (Site α)),
      (p, g) ∈ gs →
      (∀ q h, (q, h) ∈ gs → ∀ t ∈ h, t.Port = q) →
      ((gs.map Prod.fst).Nodup) →
      2 ≤ g.length → mixedTLS g →
      (serveGroups env gs).2 ≠ .ok
      ∧ ∀ e ∈ (serveGroups env gs).1, e.port ≠ p := by
  intro gs
  induction gs with
  | nil => intro p g hmem; exact absurd hmem (List.not_mem_nil (p, g))
  | cons qh rest ih =>
    intro p g hmem hports hnodup hlen hmix
    simp only [List.map_cons, List.nodup_cons] at hnodup
    rcases List.mem_cons.mp hmem with heq | hmem2
    · have hgrp : serveGroup env qh.1 qh.2
          = ([], .errored "Multiple sites on the same port with mixed HTTPS usage.") := by
        rw [show qh = (p, g) from heq.symm]
        exact lemma_group_mixed env p g hlen hmix
      constructor
      · simp only [serveGroups]
        rw [hgrp]
        simp
      · intro e he
        simp only [serveGroups] at he
        rw [hgrp] at he
        exact absurd he (List.not_mem_nil e)
    · have hqp : qh.1 ≠ p := by
        intro hq
        exact hnodup.1 (hq ▸ List.mem_map.mpr ⟨(p, g), hmem2, rfl⟩)
      have ih2 := ih p g hmem2
        (fun q h hm t ht => hports q h (List.mem_cons_of_mem qh hm) t ht)
        hnodup.2 hlen hmix
      have heff : ∀ e ∈ (serveGroup env qh.1 qh.2).1, e.port = qh.1 :=
        lemma_serveGroup_effects env qh.1 qh.2
          (hports qh.1 qh.2 (List.mem_cons_self qh rest))
      cases hsg : serveGroup env qh.1 qh.2 with
      | mk es o =>
        rw [hsg] at heff
        cases o with
        | started =>
          constructor
          · simp only [serveGroups]
            rw [hsg]
            dsimp only []
            exact ih2.1
          · intro e he
            simp only [serveGroups] at he
            rw [hsg] at he
            dsimp only [] at he
            rcases List.mem_append.mp he with h1 | h2
            · rw [heff e h1]; exact hqp
            · exact ih2.2 e h2
        | errored msg =>
          constructor
          · simp only [serveGroups]
            rw [hsg]
            simp
          · intro e he
            simp only [serveGroups] at he
            rw [hsg] at he
            dsimp only [] at he
            rw [heff e he]
            exact hqp
        | panicked msg =>
          constructor
          · simp only [serveGroups]
            rw [hsg]
            simp
          · intro e he
            simp only [serveGroups] at he
            rw [hsg] at he
            dsimp only [] at he
            rw [heff e he]
            exact hqp

/-- When no group panics and some group fails to start, the loop returns an
error value. -/
theorem lemma_serveGroups_err (env : Env) :
    ∀ (gs : List (Int × List (Site α))),
      (∀ q h m, (q, h) ∈ gs → (serveGroup env q h).2 ≠ .panicked m) →
      (∃ qh ∈ gs, (serveGroup env qh.1 qh.2).2 ≠ .started) →
      ∃ m, (serveGroups env gs).2 = .err m := by
  intro gs
  induction gs with
  | nil =>
    intro _ hex
    obtain ⟨qh, hm, _⟩ := hex
    exact absurd hm (List.not_mem_nil qh)
  | cons qh0 rest ih =>
    intro hnp hex
    cases hsg : serveGroup env qh0.1 qh0.2 with
    | mk es o =>
      cases o with
      | started =>
        obtain ⟨qh, hm, hne⟩ := hex
        rcases List.mem_cons.mp hm with heq | hm2
        · subst heq
          rw [hsg] at hne
          exact absurd rfl hne
        · obtain ⟨m, hm4⟩ := ih
            (fun q h m hm3 => hnp q h m (List.mem_cons_of_mem qh0 hm3))
            ⟨qh, hm2, hne⟩
          refine ⟨m, ?_⟩
          simp only [serveGroups]
          rw [hsg]
          exact hm4
      | errored msg =>
        refine ⟨msg, ?_⟩
        simp only [serveGroups]
        rw [hsg]
      | panicked msg =>
        have := hnp qh0.1 qh0.2 msg (List.mem_cons_self qh0 rest)
        rw [hsg] at this
        exact absurd rfl this

/-- Start outcome corresponding to an aborting group outcome. -/
def stopOutcome : GroupOutcome → StartOutcome
  | .errored msg => .err msg
  | .panicked msg => .panicked msg
  | .started => .ok

/-- When a prefix of groups starts and the next group aborts, Serve stops
there: the abort is Serve's outcome and the trace is the prefix effects
followed by the aborting group's effects. -/
theorem lemma_serve_stops (env : Env) (srv : Server α) (p : Int) (g : List (Site α))
    (gs1 gs2 : List (Int × List (Site α)))
    (hsp : portGroups srv.sites = gs1 ++ (p, g) :: gs2)
    (hstart : ∀ q h, (q, h) ∈ gs1 → (serveGroup env q h).2 = .started)
    (es : List Effect) (o : GroupOutcome) (hg : serveGroup env p g = (es, o))
    (ho : o ≠ .started) :
    (srv.Serve env).2 = stopOutcome o
    ∧ (srv.Serve env).1
        = (gs1.map (fun qh => (serveGroup env qh.1 qh.2).1)).flatten ++ es := by
  unfold Server.Serve
  rw [hsp]
  obtain ⟨h2, h1⟩ := lemma_serveGroups_started env gs1 ((p, g) :: gs2) hstart
  have hrest : serveGroups env ((p, g) :: gs2) = (es, stopOutcome o) := by
    simp only [serveGroups]
    rw [hg]
    cases o with
    | errored msg => rfl
    | panicked msg => rfl
    | started => exact absurd rfl ho
  constructor
  · rw [h2, hrest]
  · rw [h1, hrest]

/-- The key of a group occurring after a started prefix differs from every
key in the prefix. -/
theorem lemma_prefix_ports (srv : Server α) (p : Int) (g : List (Site α))
    (gs1 gs2 : List (Int × List (Site α)))
    (hsp : portGroups srv.sites = gs1 ++ (p, g) :: gs2) :
    ∀ qh ∈ gs1, qh.1 ≠ p := by
  have hnd : ((portGroups srv.sites).map Prod.fst).Nodup :=
    lemma_portGroups_fst srv.sites ▸ lemma_portList_nodup srv.sites
  rw [hsp] at hnd
  simp only [List.map_append, List.map_cons] at hnd
  obtain ⟨-, -, hdisj⟩ := List.nodup_append.mp hnd
  intro qh hqh hq
  exact hdisj (List.mem_map.mpr ⟨qh, hqh, hq⟩) (List.mem_cons_self p _)

/-- Effects contributed by a started prefix of groups never concern the port
of a group that comes later. -/
theorem lemma_flatten_ports (env : Env) (srv : Server α) (p : Int) (g : List (Site α))
    (gs1 gs2 : List (Int × List (Site α)))
    (hsp : portGroups srv.sites = gs1 ++ (p, g) :: gs2) :
    ∀ e ∈ (gs1.map (fun qh => (serveGroup env qh.1 qh.2).1)).flatten, e.port ≠ p := by
  intro e he
  obtain ⟨l, hl, hel⟩ := List.mem_flatten.mp he
  obtain ⟨qh, hqh, rfl⟩ := List.mem_map.mp hl
  have hport : e.port = qh.1 :=
    lemma_serveGroup_effects env qh.1 qh.2
      (lemma_portGroups_ports srv.sites
        (by rw [hsp]; exact List.mem_append.mpr (Or.inl hqh))) e hel
  rw [hport]
  exact lemma_prefix_ports srv p g gs1 gs2 hsp qh hqh

/-! ### Claim C1 -/

/-- C1: for every port group of two or more sites with non-uniform TLS
presence, Serve's startup never completes (it aborts with a configuration
failure: an error return, or — only when a sibling group's duplicate
registration fires first — a panic), and no effect at all is performed for
that port: its proxy registration, certificate loading, and socket bind
steps are never reached and no listener is bound there.  When no group
panics, the abort is precisely an error value returned by Serve. -/
theorem claim_c1 (env : Env) (srv : Server α) (p : Int) (g : List (Site α))
    (hmem : (p, g) ∈ portGroups srv.sites) (hlen : 2 ≤ g.length) (hmix : mixedTLS g) :
    ((srv.Serve env).2 ≠ .ok ∧ ∀ e ∈ (srv.Serve env).1, e.port ≠ p)
    ∧ ((∀ q h m, (q, h) ∈ portGroups srv.sites → (serveGroup env q h).2 ≠ .panicked m) →
      ∃ m, (srv.Serve env).2 = .err m) := by
  constructor
  · exact lemma_serve_mixed env (portGroups srv.sites) p g hmem
      (fun q h hm => lemma_portGroups_ports srv.sites hm)
      (lemma_portGroups_fst srv.sites ▸ lemma_portList_nodup srv.sites)
      hlen hmix
  · intro hnp
    refine lemma_serveGroups_err env (portGroups srv.sites) hnp ⟨(p, g), hmem, ?_⟩
    show (serveGroup env p g).2 ≠ .started
    rw [lemma_group_mixed env p g hlen hmix]
    simp

/-- Environment in which every certificate load and every bind succeeds. -/
def envC : Env := ⟨fun _ _ => none, fun _ => none⟩

/-- Plain site for the C1 witness. -/
def siteC1a : Site Nat := NewSite "plain.example" 8080 none

/-- TLS site for the C1 witness. -/
def siteC1b : Site Nat := NewSecureSite "sec.example" 8080 "c.pem" "k.pem" none

/-- Server for the C1 witness. -/
def srvC1 : Server Nat := ⟨[siteC1a, siteC1b]⟩

/-- Witness for C1 at a two-site mixed group on port 8080. -/
theorem claim_c1_witness :
    ((srvC1.Serve envC).2 ≠ .ok ∧ ∀ e ∈ (srvC1.Serve envC).1, e.port ≠ 8080)
    ∧ ((∀ q h m, (q, h) ∈ portGroups srvC1.sites →
          (serveGroup envC q h).2 ≠ .panicked m) →
      ∃ m, (srvC1.Serve envC).2 = .err m) := by
  refine claim_c1 envC srvC1 8080 [siteC1a, siteC1b] ?_ ?_ ?_
  · rw [show portGroups srvC1.sites = [((8080 : Int), [siteC1a, siteC1b])] from rfl]
    exact List.mem_singleton.mpr rfl
  · simp
  · exact ⟨⟨siteC1b, List.mem_cons_of_mem _ (List.mem_cons_self _ _), rfl⟩,
      ⟨siteC1a, List.mem_cons_self _ _, rfl⟩⟩

/-! ### Claim C7 -/

/-- C7: in a multi-site TLS port group reached after a cleanly started
prefix, the first failing certificate load makes Serve return exactly that
load error, with no listener-creating effect (bind or task spawn) for that
port; likewise, when all loads succeed and the socket bind fails, Serve
returns exactly the bind error and no listener effect for the port exists:
there is no partial activation and no retry. -/
theorem claim_c7 (env : Env) (srv : Server α) (p : Int) (g : List (Site α))
    (gs1 gs2 : List (Int × List (Site α)))
    (hsp : portGroups srv.sites = gs1 ++ (p, g) :: gs2)
    (hstart : ∀ q h, (q, h) ∈ gs1 → (serveGroup env q h).2 = .started)
    (hlen : 2 ≤ g.length)
    (hauth : ∀ t ∈ g, t.auth.isSome = true) :
    (∀ pre s post c k msg, g = pre ++ s :: post →
      ((pre ++ [s]).map Site.Name).Nodup →
      (∀ u ∈ pre, ∀ cu ku, u.auth = some (cu, ku) → env.load cu ku = none) →
      s.auth = some (c, k) → env.load c k = some msg →
      (srv.Serve env).2 = .err msg
      ∧ ∀ e ∈ (srv.Serve env).1, e.port = p → isListenKind e.kind = false)
    ∧ ((g.map Site.Name).Nodup →
      (∀ u ∈ g, ∀ cu ku, u.auth = some (cu, ku) → env.load cu ku = none) →
      ∀ msg, env.listen p = some msg →
      (srv.Serve env).2 = .err msg
      ∧ ∀ e ∈ (srv.Serve env).1, e.port = p → isListenKind e.kind = false) := by
  cases g with
  | nil => simp at hlen
  | cons s0 g2 =>
    cases g2 with
    | nil => simp at hlen
    | cons s1 grest =>
      have h0 : s0.auth.isSome = true := hauth s0 (List.mem_cons_self _ _)
      have hany : (s1 :: grest).any (fun s => s.auth.isSome != s0.auth.isSome) = false :=
        lemma_any_false_of_uniform s0 (s1 :: grest)
          (fun t ht => by rw [hauth t (List.mem_cons_of_mem s0 ht), h0])
      constructor
      · intro pre s post c k msg hdec hnd hld hs hf
        have habort : (regLoad env p true (s0 :: s1 :: grest) NewProxy).2
            = some (.errored msg) := by
          rw [hdec]
          refine lemma_regLoad_certfail env p pre s post NewProxy c k msg ?_ hnd hld ?_ hs hf
          · intro u _
            simp [NewProxy]
          · intro u hu
            exact hauth u (hdec.symm ▸ List.mem_append.mpr (Or.inl hu))
        cases hrl0 : regLoad env p true (s0 :: s1 :: grest) NewProxy with
        | mk es ab =>
          rw [hrl0] at habort
          dsimp only [] at habort
          subst habort
          have hgrp : serveGroup env p (s0 :: s1 :: grest) = (es, .errored msg) :=
            lemma_group_abort env p s0 s1 grest hany es (.errored msg)
              (by rw [h0]; exact hrl0)
          obtain ⟨ho2, ho1⟩ := lemma_serve_stops env srv p (s0 :: s1 :: grest)
            gs1 gs2 hsp hstart es (.errored msg) hgrp (by simp)
          refine ⟨by rw [ho2]; rfl, ?_⟩
          intro e he hep
          rw [ho1] at he
          rcases List.mem_append.mp he with h1 | h2
          · exact absurd hep (lemma_flatten_ports env srv p _ gs1 gs2 hsp e h1)
          · exact (lemma_regLoad_effects env p true (s0 :: s1 :: grest) NewProxy e
              (by rw [hrl0]; exact h2)).2
      · intro hnd hld msg hlst
        have hok : (regLoad env p true (s0 :: s1 :: grest) NewProxy).2 = none := by
          refine lemma_regLoad_allok env p (s0 :: s1 :: grest) NewProxy ?_ hnd hld hauth
          intro u _
          simp [NewProxy]
        cases hrl0 : regLoad env p true (s0 :: s1 :: grest) NewProxy with
        | mk es ab =>
          rw [hrl0] at hok
          dsimp only [] at hok
          subst hok
          have hgrp : serveGroup env p (s0 :: s1 :: grest) = (es, .errored msg) :=
            lemma_group_listenfail env p s0 s1 grest hany es
              (by rw [h0]; exact hrl0) msg hlst
          obtain ⟨ho2, ho1⟩ := lemma_serve_stops env srv p (s0 :: s1 :: grest)
            gs1 gs2 hsp hstart es (.errored msg) hgrp (by simp)
          refine ⟨by rw [ho2]; rfl, ?_⟩
          intro e he hep
          rw [ho1] at he
          rcases List.mem_append.mp he with h1 | h2
          · exact absurd hep (lemma_flatten_ports env srv p _ gs1 gs2 hsp e h1)
          · exact (lemma_regLoad_effects env p true (s0 :: s1 :: grest) NewProxy e
              (by rw [hrl0]; exact h2)).2

/-- Environment for the C7 witness: loading bad.pem fails, all else succeeds. -/
def envC7 : Env :=
  ⟨fun c _ => if c == "bad.pem" then some "open bad.pem: no such file" else none,
   fun _ => none⟩

/-- First TLS site of the C7 witness group. -/
def siteC7a : Site Nat := NewSecureSite "a7.example" 443 "good.pem" "gk.pem" none

/-- Second TLS site of the C7 witness group, with the failing certificate. -/
def siteC7b : Site Nat := NewSecureSite "b7.example" 443 "bad.pem" "bk.pem" none

/-- Server for the C7 witness. -/
def srvC7 : Server Nat := ⟨[siteC7a, siteC7b]⟩

/-- Witness for C7: the second site's certificate load fails and Serve
returns that error with no listener effect on port 443. -/
theorem claim_c7_witness :
    (srvC7.Serve envC7).2 = .err "open bad.pem: no such file"
    ∧ ∀ e ∈ (srvC7.Serve envC7).1, e.port = 443 → isListenKind e.kind = false := by
  refine (claim_c7 envC7 srvC7 443 [siteC7a, siteC7b] [] [] rfl
      (fun q h hm => absurd hm (List.not_mem_nil (q, h)))
      (by simp)
      ?_).1
    [siteC7a] siteC7b [] "bad.pem" "bk.pem" "open bad.pem: no such file"
    rfl (by decide) ?_ rfl rfl
  · intro t ht
    rcases List.mem_cons.mp ht with h | h
    · subst h; rfl
    · rcases List.mem_cons.mp h with h2 | h2
      · subst h2; rfl
      · exact absurd h2 (List.not_mem_nil t)
  · intro u hu cu ku hck
    rw [List.mem_singleton] at hu
    subst hu
    have hck2 : (some ("good.pem", "gk.pem") : Option (String × String))
        = some (cu, ku) := hck
    injection hck2 with hpair
    injection hpair with hc hk
    subst hc
    subst hk
    rfl

/-! ### Claim C9 -/

/-- C9: Serve never returns a success value: whenever it returns at all, the
returned Go error value is non-nil — either a startup configuration error or
the first value sent on the fan-in channel, and listener tasks send on the
channel only when their serve loop failed with a non-nil error. -/
theorem claim_c9 (env : Env) (srv : Server α) (loopErrs : List (Option String))
    (e : Option String) (hret : serveResult env srv loopErrs = .ret e) :
    ∃ msg, e = some msg := by
  unfold serveResult at hret
  cases ho : (srv.Serve env).2 with
  | ok =>
    rw [ho] at hret
    dsimp only [] at hret
    cases hh : ((loopErrs.map taskSend).flatten).head? with
    | none =>
      rw [hh] at hret
      exact ServeReturn.noConfusion hret
    | some msg =>
      rw [hh] at hret
      injection hret with h1
      exact ⟨msg, h1.symm⟩
  | err msg =>
    rw [ho] at hret
    injection hret with h1
    exact ⟨msg, h1.symm⟩
  | panicked msg =>
    rw [ho] at hret
    exact ServeReturn.noConfusion hret

/-- Witness for C9: an empty server whose only listener task reports an
error; Serve returns it and it is non-nil. -/
theorem claim_c9_witness :
    serveResult envC (⟨[]⟩ : Server Nat) [some "boom"] = .ret (some "boom")
    ∧ ∃ msg, (some "boom" : Option String) = some msg :=
  ⟨rfl, claim_c9 envC (⟨[]⟩ : Server Nat) [some "boom"] (some "boom") rfl⟩

/-! ### Claim C10 -/

/-- Plain site registered twice in the C10 scenarios. -/
def siteC10a : Site Nat := NewSite "dup.example" 80 none

/-- TLS site sharing port 80 in the C10 counterexample. -/
def siteC10c : Site Nat := NewSecureSite "sec10.example" 80 "c10.pem" "k10.pem" none

/-- C10 as stated is false: a server containing two credential-less sites
with equal Name and Port whose port group also contains a TLS site returns
the mixed-usage configuration error — the uniform-TLS check runs before any
registration, so the duplicate-domain panic is never reached. -/
theorem claim_c10_counterexample :
    (Server.Serve (⟨[siteC10a, siteC10a, siteC10c]⟩ : Server Nat) envC).2
      = .err "Multiple sites on the same port with mixed HTTPS usage."
    ∧ ∀ m, (Server.Serve (⟨[siteC10a, siteC10a, siteC10c]⟩ : Server Nat) envC).2
      ≠ .panicked m := by
  have h1 : (Server.Serve (⟨[siteC10a, siteC10a, siteC10c]⟩ : Server Nat) envC).2
      = .err "Multiple sites on the same port with mixed HTTPS usage." := by decide
  exact ⟨h1, fun m hcon => by rw [h1] at hcon; exact StartOutcome.noConfusion hcon⟩

/-- C10 (amended): when every site of the duplicate pair's port group is
credential-less and the group is reached after a cleanly started prefix,
Serve hits the unrecoverable duplicate-domain registration panic while
building that group's reverse proxy, instead of returning an error value. -/
theorem claim_c10 (env : Env) (srv : Server α) (p : Int) (g : List (Site α))
    (gs1 gs2 : List (Int × List (Site α)))
    (hsp : portGroups srv.sites = gs1 ++ (p, g) :: gs2)
    (hstart : ∀ q h, (q, h) ∈ gs1 → (serveGroup env q h).2 = .started)
    (hlen : 2 ≤ g.length)
    (hplain : ∀ t ∈ g, t.auth = none)
    (hdup : ¬ (g.map Site.Name).Nodup) :
    (srv.Serve env).2 = .panicked "Domain already registered." := by
  cases g with
  | nil => simp at hlen
  | cons s0 g2 =>
    cases g2 with
    | nil => simp at hlen
    | cons s1 grest =>
      have h0 : s0.auth.isSome = false := by
        rw [hplain s0 (List.mem_cons_self _ _)]
        rfl
      have hany : (s1 :: grest).any (fun s => s.auth.isSome != s0.auth.isSome) = false :=
        lemma_any_false_of_uniform s0 (s1 :: grest)
          (fun t ht => by
            rw [hplain t (List.mem_cons_of_mem s0 ht), hplain s0 (List.mem_cons_self _ _)])
      have hpanic : (regLoad env p false (s0 :: s1 :: grest) NewProxy).2
          = some (.panicked "Domain already registered.") :=
        lemma_regLoad_dup env p (s0 :: s1 :: grest) NewProxy (Or.inr hdup)
      cases hrl0 : regLoad env p false (s0 :: s1 :: grest) NewProxy with
      | mk es ab =>
        rw [hrl0] at hpanic
        dsimp only [] at hpanic
        subst hpanic
        have hgrp : serveGroup env p (s0 :: s1 :: grest)
            = (es, .panicked "Domain already registered.") :=
          lemma_group_abort env p s0 s1 grest hany es
            (.panicked "Domain already registered.") (by rw [h0]; exact hrl0)
        have := (lemma_serve_stops env srv p (s0 :: s1 :: grest) gs1 gs2 hsp hstart es
          (.panicked "Domain already registered.") hgrp (by simp)).1
        rw [this]
        rfl

/-- Witness for the amended C10: two identical plain sites on port 80. -/
theorem claim_c10_witness :
    (Server.Serve (⟨[siteC10a, siteC10a]⟩ : Server Nat) envC).2
      = .panicked "Domain already registered." := by
  refine claim_c10 envC ⟨[siteC10a, siteC10a]⟩ 80 [siteC10a, siteC10a] [] [] rfl
    (fun q h hm => absurd hm (List.not_mem_nil (q, h))) (by simp) ?_ (by decide)
  intro t ht
  rcases List.mem_cons.mp ht with h | h
  · subst h; rfl
  · rcases List.mem_cons.mp h with h2 | h2
    · subst h2; rfl
    · exact absurd h2 (List.not_mem_nil t)

end Web